import Mathlib

/-!
Verification of the ecoflow-nut-server sources.

The development shallowly embeds the two Python modules of the repository:

* `real_ecoflow_parser.py` — the binary envelope decoder (`EcoFlowProtobufParser.decode`);
* `simple_nut_server.py` — the MQTT message handler (`on_mqtt_message`), the
  per-device aggregator (`update_ups_data`) and the NUT text-protocol command
  processor (`_process_nut_command`, `_get_ups_variables`).

Python numbers are modelled exactly: integers as `Int`, float arithmetic as `Rat`
(the float operations performed by the server — sums of machine integers,
divisions by small constants — are exact on the values the claims exercise).
Fallible Python code (statements that can raise) is modelled with `Except`,
where the error value carries the mutated state at the point of the raise,
mirroring Python's in-place dictionary mutation.

Rational arithmetic is expressed through `Rat.divInt`-based helpers (`qadd`,
`qsub`, `qmul`, `qdiv`) so that every definition evaluates inside the kernel;
bridging lemmas identify them with the standard field operations.
-/

deriving instance DecidableEq for Except

namespace EcoflowNut

/-! ### Kernel-computable rational arithmetic -/

/-- Addition on `Rat` via `Rat.divInt`, equal to `+` (see `qadd_eq`). -/
def qadd (a b : Rat) : Rat :=
  Rat.divInt (a.num * b.den + b.num * a.den) ((a.den : Int) * (b.den : Int))

/-- Subtraction on `Rat` via `Rat.divInt`, equal to `-` (see `qsub_eq`). -/
def qsub (a b : Rat) : Rat :=
  Rat.divInt (a.num * b.den - b.num * a.den) ((a.den : Int) * (b.den : Int))

/-- Multiplication on `Rat` via `Rat.divInt`, equal to `*` (see `qmul_eq`). -/
def qmul (a b : Rat) : Rat :=
  Rat.divInt (a.num * b.num) ((a.den : Int) * (b.den : Int))

/-- Division on `Rat` via `Rat.divInt`, equal to `/` (see `qdiv_eq`). -/
def qdiv (a b : Rat) : Rat :=
  Rat.divInt (a.num * b.den) ((a.den : Int) * b.num)

theorem ratNum_eq_mul_den (a : Rat) : (a.num : ℚ) = a * (a.den : ℚ) := by
  have hd : ((a.den : ℚ)) ≠ 0 := by exact_mod_cast a.den_nz
  exact ((div_eq_iff hd).mp (Rat.num_div_den a))

theorem qadd_eq (a b : Rat) : qadd a b = a + b := by
  have had : ((a.den : ℚ)) ≠ 0 := by exact_mod_cast a.den_nz
  have hbd : ((b.den : ℚ)) ≠ 0 := by exact_mod_cast b.den_nz
  rw [qadd, Rat.divInt_eq_div]
  push_cast
  field_simp
  rw [ratNum_eq_mul_den a, ratNum_eq_mul_den b]
  ring

theorem qsub_eq (a b : Rat) : qsub a b = a - b := by
  have had : ((a.den : ℚ)) ≠ 0 := by exact_mod_cast a.den_nz
  have hbd : ((b.den : ℚ)) ≠ 0 := by exact_mod_cast b.den_nz
  rw [qsub, Rat.divInt_eq_div]
  push_cast
  field_simp
  rw [ratNum_eq_mul_den a, ratNum_eq_mul_den b]
  ring

theorem qmul_eq (a b : Rat) : qmul a b = a * b := by
  have had : ((a.den : ℚ)) ≠ 0 := by exact_mod_cast a.den_nz
  have hbd : ((b.den : ℚ)) ≠ 0 := by exact_mod_cast b.den_nz
  rw [qmul, Rat.divInt_eq_div]
  push_cast
  field_simp
  rw [ratNum_eq_mul_den a, ratNum_eq_mul_den b]
  ring

theorem qdiv_eq (a b : Rat) : qdiv a b = a / b := by
  have had : ((a.den : ℚ)) ≠ 0 := by exact_mod_cast a.den_nz
  have hbd : ((b.den : ℚ)) ≠ 0 := by exact_mod_cast b.den_nz
  rw [qdiv, Rat.divInt_eq_div]
  rcases eq_or_ne b 0 with hb | hb
  · subst hb
    simp
  · have hbn : ((b.num : ℚ)) ≠ 0 := by
      exact_mod_cast Rat.num_ne_zero.mpr hb
    push_cast
    field_simp
    rw [ratNum_eq_mul_den a, ratNum_eq_mul_den b]
    ring

/-- Python `int(x)` applied to a float value: truncation toward zero. -/
def pytrunc (q : Rat) : Int :=
  if q < 0 then -((-q).floor) else q.floor

/-! ### Data model

`update_ups_data` stores, per device, a Python dict holding the pack map under
the key `packs` plus numeric/string aggregate values.  A parsed telemetry
record (the dict produced by `MessageToDict`) is modelled by `PackRecord`,
restricted to the keys the server reads; a key the message lacks is `none`. -/

/-- One parsed telemetry record (`data` in `update_ups_data`), restricted to
the keys the server reads.  Numeric protobuf fields are integers. -/
structure PackRecord where
  num : Option Nat
  chgDsgState : Option Int
  soc : Option Int
  vol : Option Int
  temp : Option Int
  remainCap : Option Int
  designCap : Option Int
  remainTime : Option Int
deriving DecidableEq, Repr

/-- A value stored in a device's dict: Python int, float, str, or the nested
pack map (`ups_data[name]["packs"]`). -/
inductive NutValue where
  | I : Int → NutValue
  | F : Rat → NutValue
  | S : String → NutValue
  | P : List (Nat × PackRecord) → NutValue
deriving DecidableEq, Repr

/-- One device's dict (`self.ups_data[ups_name]`). -/
abbrev NutEntry := List (String × NutValue)

/-- The whole `self.ups_data` mapping. -/
abbrev UpsData := List (String × NutEntry)

/-- Python dict assignment `d[k] = v`: replaces in place, appends when new. -/
def alistInsert {κ α : Type} [DecidableEq κ] : List (κ × α) → κ → α → List (κ × α)
  | [], k, v => [(k, v)]
  | (k', v') :: rest, k, v =>
    if k' = k then (k', v) :: rest else (k', v') :: alistInsert rest k v

/-- Python dict lookup `d.get(k)` / `d[k]` (`none` models the missing case). -/
def alistLookup {κ α : Type} [DecidableEq κ] : List (κ × α) → κ → Option α
  | [], _ => none
  | (k', v') :: rest, k => if k' = k then some v' else alistLookup rest k

@[simp]
theorem alistLookup_insert_self {κ α : Type} [DecidableEq κ]
    (l : List (κ × α)) (k : κ) (v : α) :
    alistLookup (alistInsert l k v) k = some v := by
  induction l with
  | nil => simp [alistInsert, alistLookup]
  | cons hd tl ih =>
    obtain ⟨k', v'⟩ := hd
    by_cases h : k' = k
    · simp [alistInsert, alistLookup, h]
    · simp [alistInsert, alistLookup, h, ih]

theorem alistLookup_insert_ne {κ α : Type} [DecidableEq κ]
    (l : List (κ × α)) (k k₂ : κ) (v : α) (h : k ≠ k₂) :
    alistLookup (alistInsert l k v) k₂ = alistLookup l k₂ := by
  induction l with
  | nil => simp [alistInsert, alistLookup, h]
  | cons hd tl ih =>
    obtain ⟨k', v'⟩ := hd
    by_cases h' : k' = k
    · subst h'
      simp [alistInsert, alistLookup, h]
    · simp [alistInsert, alistLookup, h', ih]

theorem alistInsert_ne_nil {κ α : Type} [DecidableEq κ]
    (l : List (κ × α)) (k : κ) (v : α) :
    alistInsert l k v ≠ [] := by
  cases l with
  | nil => simp [alistInsert]
  | cons hd tl =>
    obtain ⟨k', v'⟩ := hd
    by_cases h : k' = k <;> simp [alistInsert, h]

/-- Every record in the pack map after `packs[num] = data` is either `data`
itself or one of the previously stored records. -/
theorem alistInsert_snd_mem {κ α : Type} [DecidableEq κ]
    (l : List (κ × α)) (k : κ) (v : α) :
    ∀ x ∈ (alistInsert l k v).map Prod.snd, x = v ∨ x ∈ l.map Prod.snd := by
  induction l with
  | nil => simp [alistInsert]
  | cons hd tl ih =>
    obtain ⟨k', v'⟩ := hd
    by_cases h : k' = k
    · simp [alistInsert, h]
      tauto
    · intro x hx
      have heq : (alistInsert ((k', v') :: tl) k v) = (k', v') :: alistInsert tl k v := by
        simp [alistInsert, h]
      rw [heq, List.map_cons, List.mem_cons] at hx
      rcases hx with hx | hx
      · right
        simp [hx]
      · rcases ih x hx with h' | h'
        · exact Or.inl h'
        · right
          simp [h']

/-! ### Python number-to-string rendering -/

/-- Decimal digit character. -/
def natDigitChar (d : Nat) : Char := Char.ofNat (48 + d)

/-- Decimal digits of a natural number (fuel-based so the kernel can reduce). -/
def natStrAux : Nat → Nat → List Char
  | 0, _ => []
  | fuel + 1, n =>
    if n < 10 then [natDigitChar n]
    else natStrAux fuel (n / 10) ++ [natDigitChar (n % 10)]

/-- Decimal rendering of a natural number, as Python `str` produces it. -/
def natStr (n : Nat) : String := String.mk (natStrAux (n + 1) n)

/-- Python `str` of an int. -/
def pyStrInt (i : Int) : String :=
  if i < 0 then "-" ++ natStr i.natAbs else natStr i.natAbs

/-- Round half to even, the rounding applied by Python `.1f` formatting. -/
def rhe (q : Rat) : Int :=
  let f := q.floor
  let r := qsub q ((f : Rat))
  if r < mkRat 1 2 then f
  else if mkRat 1 2 < r then f + 1
  else if f % 2 = 0 then f else f + 1

/-- Python f-string `.1f` formatting of a numeric value. -/
def format1f (q : Rat) : String :=
  let n := rhe (qmul q 10)
  let sign := if n < 0 then "-" else ""
  let m := n.natAbs
  sign ++ natStr (m / 10) ++ "." ++ natStr (m % 10)

def pow10 : Nat → Nat
  | 0 => 1
  | k + 1 => 10 * pow10 k

/-- Least `k` (starting from the second argument) such that `q * 10^k` is an
integer, searched with fuel. -/
def decExpAux (q : Rat) : Nat → Nat → Option Nat
  | 0, _ => none
  | fuel + 1, k =>
    if (qmul q ((pow10 k : Int) : Rat)).den = 1 then some k
    else decExpAux q fuel (k + 1)

def padZeros (s : List Char) (k : Nat) : List Char :=
  List.replicate (k - s.length) '0' ++ s

/-- Python `str`/`repr` of a float value, modelled for values with a
terminating decimal expansion (the only float values the claims exercise:
Python prints the shortest round-tripping decimal string, which for a float
holding such a value is its exact expansion, with at least one fractional
digit).  Values without a short terminating expansion fall back to a stub. -/
def pyStrFloat (q : Rat) : String :=
  match decExpAux q 40 0 with
  | some 0 => pyStrInt q.floor ++ ".0"
  | some (k + 1) =>
    let n := (qmul q ((pow10 (k + 1) : Int) : Rat)).floor
    let sign := if n < 0 then "-" else ""
    let m := n.natAbs
    sign ++ natStr (m / pow10 (k + 1)) ++ "." ++
      String.mk (padZeros (natStrAux (m % pow10 (k + 1) + 1) (m % pow10 (k + 1))) (k + 1))
  | none => "<nonterminating>"

/-- Python `str` of a stored value, as used by plain f-string interpolation.
The `P` case (printing the raw pack dict) is never produced by the fixed
variable lines and is stubbed. -/
def pyStr : NutValue → String
  | .I n => pyStrInt n
  | .F q => pyStrFloat q
  | .S s => s
  | .P _ => "<packs>"

/-- Application of `.1f` formatting to a stored value.  Non-numeric cases
would raise in Python; the server only stores numbers under the keys it
formats this way, so they are stubbed. -/
def fmt1fVal : NutValue → String
  | .I n => format1f ((n : Rat))
  | .F q => format1f q
  | .S _ => ""
  | .P _ => ""

/-! ### Telemetry aggregator: `update_ups_data`

The function mutates `self.ups_data[ups_name]` in place; failures
(`KeyError` on `data["num"]` or `pack["chgDsgState"]`) escape to the caller
with the dict already partially mutated.  The embedding returns
`Except UpsData UpsData`: `.ok` is normal completion, `.error` carries the
mutated state at the point of the raise. -/

/-- The integer running sums of `ups["soc"]`, `ups["vol"]`, `ups["temp"]`,
`ups["remainCap"]`, `ups["designCap"]`, `ups["remainTime"]`. -/
structure Sums where
  soc : Int
  vol : Int
  temp : Int
  remainCap : Int
  designCap : Int
  remainTime : Int
deriving DecidableEq, Repr

def zeroSums : Sums := ⟨0, 0, 0, 0, 0, 0⟩

/-- One iteration of `for f in fields: ups[f] += pack.get(f, 0)`. -/
def addSums (s : Sums) (p : PackRecord) : Sums :=
  ⟨s.soc + p.soc.getD 0, s.vol + p.vol.getD 0, s.temp + p.temp.getD 0,
   s.remainCap + p.remainCap.getD 0, s.designCap + p.designCap.getD 0,
   s.remainTime + p.remainTime.getD 0⟩

/-- The six sum keys written into the device dict, in the loop's order. -/
def writeSums (e : NutEntry) (s : Sums) : NutEntry :=
  alistInsert (alistInsert (alistInsert (alistInsert (alistInsert (alistInsert e
    "soc" (.I s.soc)) "vol" (.I s.vol)) "temp" (.I s.temp))
    "remainCap" (.I s.remainCap)) "designCap" (.I s.designCap))
    "remainTime" (.I s.remainTime)

/-- The summing/status loop over `ups["packs"].values()`.  `base` is the
device dict just after the pack upsert; the dict state at any point of the
loop is `writeSums base acc` (the zeroing step is `writeSums base zeroSums`).
A pack without the `chgDsgState` key raises `KeyError` after its values were
already added — the `.error` carries that dict state. -/
def packLoop (base : NutEntry) :
    List PackRecord → Sums → String → String → Except NutEntry (Sums × String × String)
  | [], acc, bs, us => .ok (acc, bs, us)
  | p :: rest, acc, bs, us =>
    let acc' := addSums acc p
    match p.chgDsgState with
    | none => .error (writeSums base acc')
    | some st =>
      if st = 1 then packLoop base rest acc' "ONBATT" "OB"
      else packLoop base rest acc' bs us

/-- `ups[f] = ups[f] / count if count else 0`: a Python float when divided,
the int `0` when the pack map is empty. -/
def meanVal (x : Int) (count : Nat) : NutValue :=
  if count ≠ 0 then .F (Rat.divInt x ((count : Int))) else .I 0

/-- The numeric value of the mean field as read back by the later
`ups[...] / 1000.0` and runtime computations. -/
def meanQ (x : Int) (count : Nat) : Rat :=
  if count ≠ 0 then Rat.divInt x ((count : Int)) else 0

/-- The tail of `update_ups_data` after the loop: the four averaged fields,
then the `battery.*`, timestamp and status keys, in the source's write
order.  `e1` is the dict after the summing loop (`writeSums base s`). -/
def finishEntry (e1 : NutEntry) (s : Sums) (count : Nat) (bs us : String) (now : Int) :
    NutEntry :=
  let e2 := alistInsert (alistInsert (alistInsert (alistInsert e1
    "soc" (meanVal s.soc count)) "vol" (meanVal s.vol count))
    "temp" (meanVal s.temp count)) "remainTime" (meanVal s.remainTime count)
  alistInsert (alistInsert (alistInsert (alistInsert (alistInsert (alistInsert
  (alistInsert (alistInsert (alistInsert e2
    "battery.charge" (meanVal s.soc count))
    "battery.capacity" (.F (qdiv ((s.remainCap : Rat)) 1000)))
    "battery.capacity.nominal" (.F (qdiv ((s.designCap : Rat)) 1000)))
    "battery.voltage" (.F (qdiv (meanQ s.vol count) 1000)))
    "battery.temperature" (meanVal s.temp count))
    "battery.runtime" (.I (pytrunc (qmul (qdiv (meanQ s.remainTime count) 100) 3600))))
    "battery.status" (.S bs))
    "ups.timestamp" (.I now))
    "ups.status" (.S us)

/-- The lazy device-entry initialization at the top of `update_ups_data`:
`if ups_name not in self.ups_data: self.ups_data[ups_name] = ..packs: ...`. -/
def initState (upsData : UpsData) (name : String) : UpsData :=
  match alistLookup upsData name with
  | none => alistInsert upsData name [("packs", NutValue.P [])]
  | some _ => upsData

/-- Embedding of `update_ups_data(self, ups_name, data)`.  `now` stands for
`int(time.time())`.  `.error st` models an exception escaping with the
mutated shared state `st`. -/
def updateUpsData (upsData : UpsData) (name : String) (data : PackRecord) (now : Int) :
    Except UpsData UpsData :=
  let st := initState upsData name
  match data.num with
  | none => .error st
  | some n =>
    match alistLookup st name with
    | none => .error st
    | some e =>
      match alistLookup e "packs" with
      | some (.P ps) =>
        let ps' := alistInsert ps n data
        let e0 := alistInsert e "packs" (.P ps')
        let count := ps'.length
        match packLoop e0 (ps'.map Prod.snd) zeroSums "CHRG" "OL" with
        | .error eErr => .error (alistInsert st name eErr)
        | .ok (s, bs, us) =>
          .ok (alistInsert st name (finishEntry (writeSums e0 s) s count bs us now))
      | _ => .error st

/-! ### Envelope decoder: `EcoFlowProtobufParser.decode`

The protobuf wire-format parsers (`Send_Header_Msg.ParseFromString`,
`BMSHeartBeatReport.ParseFromString`, `DisplayPropertyUpload.ParseFromString`)
are generated library code outside the sources; they are abstracted as
function parameters returning `Except` (an `.error` models `ParseFromString`
raising, e.g. on a malformed or truncated frame).  Everything else —
the first-message access, the conditional byte mask, the
`(cmd_func, cmd_id)` dispatch and the catch-all `except` — is the decoder's
own code and is embedded directly. -/

/-- The fields of `sender_msg.msg[0]` that `decode` reads. -/
structure EnvMsg where
  seq : Nat
  cmd_func : Nat
  cmd_id : Nat
  enc_type : Nat
  pdata : List Nat
deriving DecidableEq, Repr

/-- The per-byte mask loop: `pdata[i] = (pdata[i] ^ seq) & 0xFF`. -/
def maskBytes (pdata : List Nat) (seq : Nat) : List Nat :=
  pdata.map (fun b => (b ^^^ seq) % 256)

/-- The body of `decode` before its `except` clause.  `.error` is a raised
exception; `.ok none` is the explicit `return None` for an unknown
`(cmd_func, cmd_id)` pair. -/
def decodeCore (parseOuter : List Nat → Except String (List EnvMsg))
    (parseBMS : List Nat → Except String PackRecord)
    (parseDisplay : List Nat → Except String PackRecord)
    (binary : List Nat) : Except String (Option PackRecord) :=
  match parseOuter binary with
  | .error e => .error e
  | .ok msgs =>
    match msgs with
    | [] => .error "IndexError"
    | m :: _ =>
      let pdata := if m.enc_type ≠ 0 then maskBytes m.pdata m.seq else m.pdata
      if m.cmd_func = 32 ∧ m.cmd_id = 50 then
        match parseBMS pdata with
        | .error e => .error e
        | .ok r => .ok (some r)
      else if m.cmd_func = 254 ∧ m.cmd_id = 21 then
        match parseDisplay pdata with
        | .error e => .error e
        | .ok r => .ok (some r)
      else .ok none

/-- Embedding of `decode(self, binary_data, device_serial)`: the `except`
clause turns every raised exception into `None` (plus a log line). -/
def decodeRun (parseOuter : List Nat → Except String (List EnvMsg))
    (parseBMS : List Nat → Except String PackRecord)
    (parseDisplay : List Nat → Except String PackRecord)
    (binary : List Nat) (_deviceSerial : String) : Option PackRecord :=
  match decodeCore parseOuter parseBMS parseDisplay binary with
  | .ok r => r
  | .error _ => none

/-! ### Python string primitives used by the protocol server -/

/-- Does the second list lead the first (`str.startswith`)? -/
def leadsWith : List Char → List Char → Bool
  | _, [] => true
  | [], _ :: _ => false
  | a :: s, b :: t => a = b && leadsWith s t

/-- Python substring containment (`sub in s`). -/
def pyContains (sub : List Char) : List Char → Bool
  | [] => leadsWith [] sub
  | c :: rest => leadsWith (c :: rest) sub || pyContains sub rest

/-- First occurrence of `sep` in `s`: returns the part before and the part
after.  `none` when `sep` does not occur. -/
def seekSplit : List Char → List Char → Option (List Char × List Char)
  | [], _ => none
  | c :: rest, sep =>
    if leadsWith (c :: rest) sep then some ([], (c :: rest).drop sep.length)
    else
      match seekSplit rest sep with
      | some (b, a) => some (c :: b, a)
      | none => none

/-- Python `str.split(sep)` with a non-empty separator, fuel-based so the
kernel can evaluate it.  `pySplit` supplies sufficient fuel. -/
def pySplitAux (sep : List Char) : Nat → List Char → List (List Char)
  | 0, s => [s]
  | fuel + 1, s =>
    match seekSplit s sep with
    | none => [s]
    | some (b, a) => b :: pySplitAux sep fuel a

/-- Python `str.split(sep)`.  (Python raises on an empty separator; the
server always splits on non-empty literals.) -/
def pySplit (s sep : List Char) : List (List Char) :=
  if sep = [] then [s] else pySplitAux sep (s.length + 1) s

/-! ### Status protocol server: `_process_nut_command` / `_get_ups_variables` -/

/-- One entry of the configured device list. -/
structure Device where
  ups_name : String
  serial : String
deriving DecidableEq, Repr

/-- The fixed description appended to every device in `LIST UPS`. -/
def upsDescr : String := " EcoFlow River 3 Plus"

/-- Embedding of `_get_ups_variables(self, ups_name)`. -/
def getUpsVariables (upsData : UpsData) (name : String) : String :=
  match alistLookup upsData name with
  | none => "ERR UNKNOWN-UPS\n"
  | some data =>
    let gv := fun (k : String) => (alistLookup data k).getD (.I 0)
    let gs := fun (k : String) => (alistLookup data k).getD (.S "UNKNOWN")
    let lines :=
      ["VAR " ++ name ++ " battery.charge " ++ pyStr (gv "battery.charge"),
       "VAR " ++ name ++ " battery.capacity " ++ fmt1fVal (gv "battery.capacity"),
       "VAR " ++ name ++ " battery.capacity.nominal " ++ fmt1fVal (gv "battery.capacity.nominal"),
       "VAR " ++ name ++ " battery.voltage " ++ fmt1fVal (gv "battery.voltage"),
       "VAR " ++ name ++ " battery.temperature " ++ pyStr (gv "battery.temperature"),
       "VAR " ++ name ++ " battery.runtime " ++ pyStr (gv "battery.runtime"),
       "VAR " ++ name ++ " battery.status " ++ pyStr (gs "battery.status"),
       "VAR " ++ name ++ " ups.status " ++ pyStr (gs "ups.status"),
       "VAR " ++ name ++ " ups.timestamp " ++ pyStr (gv "ups.timestamp")]
    "BEGIN LIST VAR\n" ++ String.intercalate "\n" lines ++ "\nEND LIST VAR\n"

/-- The `GET VAR` reply line: `.1f` for a Python float, plain `str`
otherwise. -/
def formatGetVar (name var : String) (v : NutValue) : String :=
  match v with
  | .F q => "VAR " ++ name ++ " " ++ var ++ " " ++ format1f q ++ "\n"
  | v => "VAR " ++ name ++ " " ++ var ++ " " ++ pyStr v ++ "\n"

/-- Embedding of `_process_nut_command(self, command)`: `none` is the
`return None` path (no response sent). -/
def processNutCommand (devices : List Device) (upsData : UpsData) (command : String) :
    Option String :=
  if command = "LIST UPS" then
    some ("BEGIN LIST UPS\n" ++
      String.intercalate "\n" (devices.map (fun d => d.ups_name ++ upsDescr)) ++
      "\nEND LIST UPS\n")
  else if leadsWith command.data "LIST VAR ".data then
    let name := String.mk ((pySplit command.data "LIST VAR ".data).getD 1 [])
    if (alistLookup upsData name).isSome then some (getUpsVariables upsData name)
    else some "ERR UNKNOWN-UPS\n"
  else if leadsWith command.data "GET VAR ".data then
    let parts := pySplit command.data [' ']
    if parts.length ≥ 4 then
      let name := String.mk (parts.getD 2 [])
      let var := String.mk (parts.getD 3 [])
      match alistLookup upsData name with
      | some e => some (formatGetVar name var ((alistLookup e var).getD (.I 0)))
      | none => some "ERR UNKNOWN-UPS\n"
    else none
  else if command = "USERNAME admin" then some "OK\n"
  else if command = "PASSWORD admin" then some "OK\n"
  else if command = "LOGIN" then some "OK\n"
  else if command = "LOGOUT" then some "OK\n"
  else none

/-! ### MQTT message handler: `on_mqtt_message`

The whole callback body runs under a catch-all `try`; a second inner `try`
wraps the parse + update.  The decoder (`parse_simple_binary`, which wraps
`EcoFlowProtobufParser.decode` in its own catch-all) is abstracted as a
`parseBin` parameter returning `Option`.  The result records the new
`ups_data` state and whether the binary decoder was invoked. -/

/-- The binary branch of `on_mqtt_message`: parse, then update; an exception
escaping `update_ups_data` is caught by the inner `except`, keeping the
partially mutated state. -/
def onMqttBinary (parseBin : List Nat → String → Option PackRecord)
    (upsData : UpsData) (upsName : String) (payload : List Nat) (now : Int) :
    UpsData × Bool :=
  match parseBin payload upsName with
  | some data =>
    match updateUpsData upsData upsName data now with
    | .ok st' => (st', true)
    | .error stErr => (stErr, true)
  | none => (upsData, true)

/-- Embedding of `on_mqtt_message(self, client, userdata, msg)`.  The Bool
result is true exactly when the binary decoder was invoked.  The branch for
a payload opening with the two JSON bytes returns unchanged state: the
`log.debug` call there raises `NameError` (the module logger is `LOG`),
which the outer catch-all absorbs — either way the callback returns without
decoding. -/
def onMqttMessage (devices : List Device)
    (parseBin : List Nat → String → Option PackRecord)
    (upsData : UpsData) (topic : String) (payload : List Nat) (now : Int) :
    UpsData × Bool :=
  match devices.find? (fun d => pyContains d.serial.data topic.data) with
  | none => (upsData, false)
  | some d =>
    match payload with
    | [] => (upsData, false)
    | [b0] =>
      if b0 = 0x7B then (upsData, false)
      else onMqttBinary parseBin upsData d.ups_name payload now
    | b0 :: b1 :: _ =>
      if b0 = 0x7B ∧ b1 = 0x22 then (upsData, false)
      else onMqttBinary parseBin upsData d.ups_name payload now

/-! ### Lemmas about the aggregator -/

theorem alistLookup_insert {κ α : Type} [DecidableEq κ]
    (l : List (κ × α)) (k k₂ : κ) (v : α) :
    alistLookup (alistInsert l k v) k₂ = if k = k₂ then some v else alistLookup l k₂ := by
  by_cases h : k = k₂
  · subst h
    simp
  · simp [h, alistLookup_insert_ne l k k₂ v h]

theorem foldl_addSums (ps : List PackRecord) (acc : Sums) :
    ps.foldl addSums acc =
      ⟨acc.soc + (ps.map (fun p => p.soc.getD 0)).sum,
       acc.vol + (ps.map (fun p => p.vol.getD 0)).sum,
       acc.temp + (ps.map (fun p => p.temp.getD 0)).sum,
       acc.remainCap + (ps.map (fun p => p.remainCap.getD 0)).sum,
       acc.designCap + (ps.map (fun p => p.designCap.getD 0)).sum,
       acc.remainTime + (ps.map (fun p => p.remainTime.getD 0)).sum⟩ := by
  induction ps generalizing acc with
  | nil => simp
  | cons p rest ih =>
    rw [List.foldl_cons, ih (addSums acc p)]
    simp only [addSums, List.map_cons, List.sum_cons, Sums.mk.injEq]
    refine ⟨by ring, by ring, by ring, by ring, by ring, by ring⟩

theorem packLoop_ok_sums (base : NutEntry) (ps : List PackRecord) (acc : Sums)
    (bs us : String) (s : Sums) (bs' us' : String)
    (h : packLoop base ps acc bs us = .ok (s, bs', us')) :
    s = ps.foldl addSums acc := by
  induction ps generalizing acc bs us with
  | nil =>
    simp [packLoop] at h
    simp [h.1]
  | cons p rest ih =>
    cases hst : p.chgDsgState with
    | none =>
      simp only [packLoop, hst] at h
      exact absurd h (by simp)
    | some stv =>
      simp only [packLoop, hst] at h
      by_cases h1 : stv = 1
      · rw [if_pos h1] at h
        rw [List.foldl_cons]
        exact ih (addSums acc p) "ONBATT" "OB" h
      · rw [if_neg h1] at h
        rw [List.foldl_cons]
        exact ih (addSums acc p) bs us h

theorem packLoop_ok_status (base : NutEntry) (ps : List PackRecord) (acc : Sums)
    (bs us : String) (s : Sums) (bs' us' : String)
    (h : packLoop base ps acc bs us = .ok (s, bs', us')) :
    (bs', us') =
      if ∃ p ∈ ps, p.chgDsgState = some 1 then ("ONBATT", "OB") else (bs, us) := by
  induction ps generalizing acc bs us with
  | nil =>
    simp [packLoop] at h
    simp [h.2.1, h.2.2]
  | cons p rest ih =>
    cases hst : p.chgDsgState with
    | none =>
      simp only [packLoop, hst] at h
      exact absurd h (by simp)
    | some stv =>
      simp only [packLoop, hst] at h
      by_cases h1 : stv = 1
      · subst h1
        rw [if_pos rfl] at h
        have := ih (addSums acc p) "ONBATT" "OB" h
        rw [if_pos ⟨p, List.mem_cons_self p rest, hst⟩]
        rcases em (∃ q ∈ rest, q.chgDsgState = some 1) with hex | hex
        · rwa [if_pos hex] at this
        · rwa [if_neg hex] at this
      · rw [if_neg h1] at h
        have := ih (addSums acc p) bs us h
        have hnp : ¬ (p.chgDsgState = some 1) := by
          rw [hst]
          simp
          intro he
          exact absurd he h1
        rcases em (∃ q ∈ rest, q.chgDsgState = some 1) with hex | hex
        · rw [if_pos hex] at this
          rw [if_pos ?_]
          · exact this
          · obtain ⟨q, hq, hq1⟩ := hex
            exact ⟨q, List.mem_cons_of_mem p hq, hq1⟩
        · rw [if_neg hex] at this
          rw [if_neg ?_]
          · exact this
          · rintro ⟨q, hq, hq1⟩
            rcases List.mem_cons.mp hq with rfl | hq'
            · exact hnp hq1
            · exact hex ⟨q, hq', hq1⟩

theorem packLoop_ok_of_all_states (base : NutEntry) (ps : List PackRecord) (acc : Sums)
    (bs us : String) (h : ∀ p ∈ ps, (p.chgDsgState).isSome) :
    ∃ r, packLoop base ps acc bs us = .ok r := by
  induction ps generalizing acc bs us with
  | nil => exact ⟨(acc, bs, us), rfl⟩
  | cons p rest ih =>
    have hp := h p (List.mem_cons_self p rest)
    cases hst : p.chgDsgState with
    | none => rw [hst] at hp; exact absurd hp (by simp)
    | some stv =>
      have hrest : ∀ q ∈ rest, (q.chgDsgState).isSome :=
        fun q hq => h q (List.mem_cons_of_mem p hq)
      simp only [packLoop, hst]
      by_cases h1 : stv = 1
      · rw [if_pos h1]
        exact ih (addSums acc p) "ONBATT" "OB" hrest
      · rw [if_neg h1]
        exact ih (addSums acc p) bs us hrest

theorem packLoop_error_of_missing (base : NutEntry) (ps : List PackRecord) (acc : Sums)
    (bs us : String) (h : ∃ p ∈ ps, p.chgDsgState = none) :
    ∃ acc', packLoop base ps acc bs us = .error (writeSums base acc') := by
  induction ps generalizing acc bs us with
  | nil =>
    obtain ⟨p, hp, _⟩ := h
    exact absurd hp (by simp)
  | cons p rest ih =>
    cases hst : p.chgDsgState with
    | none =>
      refine ⟨addSums acc p, ?_⟩
      simp only [packLoop, hst]
    | some stv =>
      have hrest : ∃ q ∈ rest, q.chgDsgState = none := by
        obtain ⟨q, hq, hq0⟩ := h
        rcases List.mem_cons.mp hq with rfl | hq'
        · rw [hst] at hq0
          exact absurd hq0 (by simp)
        · exact ⟨q, hq', hq0⟩
      simp only [packLoop, hst]
      by_cases h1 : stv = 1
      · rw [if_pos h1]
        exact ih (addSums acc p) "ONBATT" "OB" hrest
      · rw [if_neg h1]
        exact ih (addSums acc p) bs us hrest

theorem finishEntry_charge (e1 : NutEntry) (s : Sums) (count : Nat) (bs us : String)
    (now : Int) :
    alistLookup (finishEntry e1 s count bs us now) "battery.charge" =
      some (meanVal s.soc count) := by
  simp +decide [finishEntry, alistLookup_insert]

theorem finishEntry_capacity (e1 : NutEntry) (s : Sums) (count : Nat) (bs us : String)
    (now : Int) :
    alistLookup (finishEntry e1 s count bs us now) "battery.capacity" =
      some (.F (qdiv ((s.remainCap : Rat)) 1000)) := by
  simp +decide [finishEntry, alistLookup_insert]

theorem finishEntry_capacity_nominal (e1 : NutEntry) (s : Sums) (count : Nat)
    (bs us : String) (now : Int) :
    alistLookup (finishEntry e1 s count bs us now) "battery.capacity.nominal" =
      some (.F (qdiv ((s.designCap : Rat)) 1000)) := by
  simp +decide [finishEntry, alistLookup_insert]

theorem finishEntry_voltage (e1 : NutEntry) (s : Sums) (count : Nat) (bs us : String)
    (now : Int) :
    alistLookup (finishEntry e1 s count bs us now) "battery.voltage" =
      some (.F (qdiv (meanQ s.vol count) 1000)) := by
  simp +decide [finishEntry, alistLookup_insert]

theorem finishEntry_temperature (e1 : NutEntry) (s : Sums) (count : Nat) (bs us : String)
    (now : Int) :
    alistLookup (finishEntry e1 s count bs us now) "battery.temperature" =
      some (meanVal s.temp count) := by
  simp +decide [finishEntry, alistLookup_insert]

theorem finishEntry_runtime (e1 : NutEntry) (s : Sums) (count : Nat) (bs us : String)
    (now : Int) :
    alistLookup (finishEntry e1 s count bs us now) "battery.runtime" =
      some (.I (pytrunc (qmul (qdiv (meanQ s.remainTime count) 100) 3600))) := by
  simp +decide [finishEntry, alistLookup_insert]

theorem finishEntry_battery_status (e1 : NutEntry) (s : Sums) (count : Nat)
    (bs us : String) (now : Int) :
    alistLookup (finishEntry e1 s count bs us now) "battery.status" = some (.S bs) := by
  simp +decide [finishEntry, alistLookup_insert]

theorem finishEntry_ups_status (e1 : NutEntry) (s : Sums) (count : Nat)
    (bs us : String) (now : Int) :
    alistLookup (finishEntry e1 s count bs us now) "ups.status" = some (.S us) := by
  simp +decide [finishEntry, alistLookup_insert]

theorem finishEntry_timestamp (e1 : NutEntry) (s : Sums) (count : Nat)
    (bs us : String) (now : Int) :
    alistLookup (finishEntry e1 s count bs us now) "ups.timestamp" = some (.I now) := by
  simp +decide [finishEntry, alistLookup_insert]

theorem finishEntry_packs (e1 : NutEntry) (s : Sums) (count : Nat)
    (bs us : String) (now : Int) :
    alistLookup (finishEntry e1 s count bs us now) "packs" = alistLookup e1 "packs" := by
  simp +decide [finishEntry, alistLookup_insert]

theorem writeSums_packs (e : NutEntry) (s : Sums) :
    alistLookup (writeSums e s) "packs" = alistLookup e "packs" := by
  simp +decide [writeSums, alistLookup_insert]

/-- Structural description of a successful `update_ups_data` run. -/
theorem updateUpsData_ok (upsData : UpsData) (name : String) (data : PackRecord)
    (now : Int) (st' : UpsData)
    (h : updateUpsData upsData name data now = .ok st') :
    ∃ n e ps s bs us,
      data.num = some n ∧
      alistLookup (initState upsData name) name = some e ∧
      alistLookup e "packs" = some (NutValue.P ps) ∧
      packLoop (alistInsert e "packs" (.P (alistInsert ps n data)))
          ((alistInsert ps n data).map Prod.snd) zeroSums "CHRG" "OL" = .ok (s, bs, us) ∧
      st' = alistInsert (initState upsData name) name
        (finishEntry
          (writeSums (alistInsert e "packs" (.P (alistInsert ps n data))) s)
          s (alistInsert ps n data).length bs us now) := by
  simp only [updateUpsData] at h
  cases hnum : data.num with
  | none =>
    simp only [hnum] at h
    exact absurd h (by simp)
  | some n =>
    simp only [hnum] at h
    cases hent : alistLookup (initState upsData name) name with
    | none =>
      simp only [hent] at h
      exact absurd h (by simp)
    | some e =>
      simp only [hent] at h
      cases hpk : alistLookup e "packs" with
      | none =>
        simp only [hpk] at h
        exact absurd h (by simp)
      | some v =>
        simp only [hpk] at h
        cases v with
        | I x => simp at h
        | F x => simp at h
        | S x => simp at h
        | P ps =>
          simp only at h
          cases hpl : packLoop (alistInsert e "packs" (.P (alistInsert ps n data)))
              ((alistInsert ps n data).map Prod.snd) zeroSums "CHRG" "OL" with
          | error eErr =>
            simp only [hpl] at h
            exact absurd h (by simp)
          | ok r =>
            obtain ⟨s, bs, us⟩ := r
            simp only [hpl] at h
            refine ⟨n, e, ps, s, bs, us, rfl, rfl, hpk, hpl, ?_⟩
            injection h with h'
            exact h'.symm

theorem intCast_sum_map {α : Type} (l : List α) (f : α → Int) :
    (((l.map f).sum : Int) : ℚ) = (l.map (fun x => ((f x : Int) : ℚ))).sum := by
  induction l with
  | nil => simp
  | cons x xs ih =>
    rw [List.map_cons, List.sum_cons, List.map_cons, List.sum_cons, ← ih]
    push_cast
    ring

theorem meanVal_eq_div (x : Int) (count : Nat) (h : count ≠ 0) :
    meanVal x count = .F ((x : ℚ) / ((count : ℚ))) := by
  rw [meanVal, if_pos h, Rat.divInt_eq_div]
  norm_cast

theorem meanQ_eq_div (x : Int) (count : Nat) (h : count ≠ 0) :
    meanQ x count = (x : ℚ) / ((count : ℚ)) := by
  rw [meanQ, if_pos h, Rat.divInt_eq_div]
  norm_cast

/-! ### Claim theorems -/

/-- C2: after every successful update of a device (whose pack map then holds
`n ≥ 1` packs), `battery.charge` and `battery.temperature` are the arithmetic
means of the packs' `soc` and `temp` values, `battery.voltage` is the mean of
the `vol` values divided by 1000, `battery.capacity` and
`battery.capacity.nominal` are the unscaled sums of `remainCap` and
`designCap` divided by 1000, and `battery.runtime` is
`int((mean remainTime / 100) * 3600)`, the source formula preserved
literally. -/
theorem c2_aggregate_means (upsData : UpsData) (name : String) (data : PackRecord)
    (now : Int) (st' : UpsData)
    (h : updateUpsData upsData name data now = .ok st') :
    ∃ e ps,
      alistLookup st' name = some e ∧
      alistLookup e "packs" = some (NutValue.P ps) ∧
      1 ≤ ps.length ∧
      alistLookup e "battery.charge" =
        some (.F ((((ps.map (fun p => (p.2).soc.getD 0)).sum : ℚ)) / ((ps.length : ℚ)))) ∧
      alistLookup e "battery.temperature" =
        some (.F ((((ps.map (fun p => (p.2).temp.getD 0)).sum : ℚ)) / ((ps.length : ℚ)))) ∧
      alistLookup e "battery.voltage" =
        some (.F (((((ps.map (fun p => (p.2).vol.getD 0)).sum : ℚ)) / ((ps.length : ℚ))) / 1000)) ∧
      alistLookup e "battery.capacity" =
        some (.F (((ps.map (fun p => (p.2).remainCap.getD 0)).sum : ℚ) / 1000)) ∧
      alistLookup e "battery.capacity.nominal" =
        some (.F (((ps.map (fun p => (p.2).designCap.getD 0)).sum : ℚ) / 1000)) ∧
      alistLookup e "battery.runtime" =
        some (.I (pytrunc (((((ps.map (fun p => (p.2).remainTime.getD 0)).sum : ℚ)) / ((ps.length : ℚ))) / 100 * 3600))) := by
  obtain ⟨n, e0, ps0, s, bs, us, hnum, hent, hpk, hpl, hst⟩ :=
    updateUpsData_ok upsData name data now st' h
  have hcount : (alistInsert ps0 n data).length ≠ 0 := by
    intro hc
    exact alistInsert_ne_nil ps0 n data (List.length_eq_zero.mp hc)
  have hs := packLoop_ok_sums _ _ _ _ _ _ _ _ hpl
  rw [foldl_addSums] at hs
  have hsoc : s.soc = ((alistInsert ps0 n data).map (fun p => (p.2).soc.getD 0)).sum := by
    rw [hs]
    simp [zeroSums, List.map_map, Function.comp_def]
  have hvol : s.vol = ((alistInsert ps0 n data).map (fun p => (p.2).vol.getD 0)).sum := by
    rw [hs]
    simp [zeroSums, List.map_map, Function.comp_def]
  have htemp : s.temp = ((alistInsert ps0 n data).map (fun p => (p.2).temp.getD 0)).sum := by
    rw [hs]
    simp [zeroSums, List.map_map, Function.comp_def]
  have hrc : s.remainCap = ((alistInsert ps0 n data).map (fun p => (p.2).remainCap.getD 0)).sum := by
    rw [hs]
    simp [zeroSums, List.map_map, Function.comp_def]
  have hdc : s.designCap = ((alistInsert ps0 n data).map (fun p => (p.2).designCap.getD 0)).sum := by
    rw [hs]
    simp [zeroSums, List.map_map, Function.comp_def]
  have hrt : s.remainTime = ((alistInsert ps0 n data).map (fun p => (p.2).remainTime.getD 0)).sum := by
    rw [hs]
    simp [zeroSums, List.map_map, Function.comp_def]
  subst hst
  refine ⟨_, alistInsert ps0 n data, alistLookup_insert_self _ _ _, ?_, ?_, ?_, ?_, ?_, ?_, ?_, ?_⟩
  · rw [finishEntry_packs, writeSums_packs]
    exact alistLookup_insert_self _ _ _
  · exact Nat.one_le_iff_ne_zero.mpr hcount
  · rw [finishEntry_charge, meanVal_eq_div _ _ hcount, hsoc]
    simp [intCast_sum_map, Function.comp_def]
  · rw [finishEntry_temperature, meanVal_eq_div _ _ hcount, htemp]
    simp [intCast_sum_map, Function.comp_def]
  · rw [finishEntry_voltage, qdiv_eq, meanQ_eq_div _ _ hcount, hvol]
    simp [intCast_sum_map, Function.comp_def]
  · rw [finishEntry_capacity, qdiv_eq, hrc]
    simp [intCast_sum_map, Function.comp_def]
  · rw [finishEntry_capacity_nominal, qdiv_eq, hdc]
    simp [intCast_sum_map, Function.comp_def]
  · rw [finishEntry_runtime, qmul_eq, qdiv_eq, meanQ_eq_div _ _ hcount, hrt]
    simp [intCast_sum_map, Function.comp_def]

/-- C3: after every successful update, if any pack of the device's current
pack map reports the discharging state (`chgDsgState == 1`), then
`battery.status` is ONBATT and `ups.status` is OB, regardless of the other
packs; if no pack is discharging, they are CHRG and OL. -/
theorem c3_discharge_status (upsData : UpsData) (name : String) (data : PackRecord)
    (now : Int) (st' : UpsData)
    (h : updateUpsData upsData name data now = .ok st') :
    ∃ e ps,
      alistLookup st' name = some e ∧
      alistLookup e "packs" = some (NutValue.P ps) ∧
      ((∃ p ∈ ps, (p.2).chgDsgState = some 1) →
        alistLookup e "battery.status" = some (.S "ONBATT") ∧
        alistLookup e "ups.status" = some (.S "OB")) ∧
      ((∀ p ∈ ps, ¬ ((p.2).chgDsgState = some 1)) →
        alistLookup e "battery.status" = some (.S "CHRG") ∧
        alistLookup e "ups.status" = some (.S "OL")) := by
  obtain ⟨n, e0, ps0, s, bs, us, hnum, hent, hpk, hpl, hst⟩ :=
    updateUpsData_ok upsData name data now st' h
  have hbu := packLoop_ok_status _ _ _ _ _ _ _ _ hpl
  subst hst
  refine ⟨_, alistInsert ps0 n data, alistLookup_insert_self _ _ _, ?_, ?_, ?_⟩
  · rw [finishEntry_packs, writeSums_packs]
    exact alistLookup_insert_self _ _ _
  · intro hex
    have hex' : ∃ p ∈ (alistInsert ps0 n data).map Prod.snd, p.chgDsgState = some 1 := by
      obtain ⟨p, hp, h1⟩ := hex
      exact ⟨p.2, List.mem_map_of_mem Prod.snd hp, h1⟩
    rw [if_pos hex'] at hbu
    have hbs : bs = "ONBATT" := congrArg Prod.fst hbu
    have hus : us = "OB" := congrArg Prod.snd hbu
    subst hbs
    subst hus
    exact ⟨finishEntry_battery_status _ _ _ _ _ _, finishEntry_ups_status _ _ _ _ _ _⟩
  · intro hall
    have hex' : ¬ ∃ p ∈ (alistInsert ps0 n data).map Prod.snd, p.chgDsgState = some 1 := by
      rintro ⟨p, hp, h1⟩
      obtain ⟨pr, hpr, rfl⟩ := List.mem_map.mp hp
      exact hall pr hpr h1
    rw [if_neg hex'] at hbu
    have hbs : bs = "CHRG" := congrArg Prod.fst hbu
    have hus : us = "OL" := congrArg Prod.snd hbu
    subst hbs
    subst hus
    exact ⟨finishEntry_battery_status _ _ _ _ _ _, finishEntry_ups_status _ _ _ _ _ _⟩

/-- Shape invariant of reachable `ups_data` states: an existing device entry
holds its pack map under `packs`. -/
def devShape (upsData : UpsData) (name : String) : Bool :=
  match alistLookup upsData name with
  | none => true
  | some e =>
    match alistLookup e "packs" with
    | some (.P _) => true
    | _ => false

/-- The stored pack map of a device (empty when the device is unseen). -/
def oldPacks (upsData : UpsData) (name : String) : List (Nat × PackRecord) :=
  match alistLookup upsData name with
  | none => []
  | some e =>
    match alistLookup e "packs" with
    | some (.P ps) => ps
    | _ => []

theorem initState_shape (upsData : UpsData) (name : String)
    (h : devShape upsData name = true) :
    ∃ e, alistLookup (initState upsData name) name = some e ∧
      alistLookup e "packs" = some (.P (oldPacks upsData name)) := by
  cases hl : alistLookup upsData name with
  | none =>
    refine ⟨[("packs", .P [])], ?_, ?_⟩
    · simp [initState, hl]
    · simp [oldPacks, hl, alistLookup]
  | some e =>
    refine ⟨e, ?_, ?_⟩
    · simp [initState, hl]
    · simp only [devShape, hl] at h
      simp only [oldPacks, hl]
      cases hp : alistLookup e "packs" with
      | none => rw [hp] at h; simp at h
      | some v =>
        rw [hp] at h
        cases v with
        | P ps => rfl
        | I x => simp at h
        | F x => simp at h
        | S x => simp at h

/-- C10: `update_ups_data` indexes `data["num"]` and `pack["chgDsgState"]`
without guards.  When the new record and all stored pack records carry the
`num` and `chgDsgState` keys, the update completes and writes every
aggregate field, any value missing among soc/vol/temp/remainCap/designCap/
remainTime entering the recomputed aggregate as 0; when `chgDsgState` is
absent from some pack of the resulting map, the update raises after the new
record was already inserted into the pack map. -/
theorem c10_keyerror_guards (upsData : UpsData) (name : String) (data : PackRecord)
    (now : Int) (n : Nat) :
    ((devShape upsData name = true → data.num = some n →
      (data.num).isSome ∧ (data.chgDsgState).isSome →
      (∀ p ∈ (oldPacks upsData name).map Prod.snd,
        (p.num).isSome ∧ (p.chgDsgState).isSome) →
      ∃ st' e,
        updateUpsData upsData name data now = .ok st' ∧
        alistLookup st' name = some e ∧
        (∀ k ∈ ["battery.charge", "battery.capacity", "battery.capacity.nominal",
                "battery.voltage", "battery.temperature", "battery.runtime",
                "battery.status", "ups.timestamp", "ups.status"],
          (alistLookup e k).isSome) ∧
        alistLookup e "battery.charge" =
          some (.F (((((alistInsert (oldPacks upsData name) n data).map
              (fun p => (p.2).soc.getD 0)).sum : Int) : ℚ) /
            (((alistInsert (oldPacks upsData name) n data).length : ℚ))))) ∧
    (devShape upsData name = true → data.num = some n →
      (∃ p ∈ (alistInsert (oldPacks upsData name) n data).map Prod.snd,
        p.chgDsgState = none) →
      ∃ stE e ps,
        updateUpsData upsData name data now = .error stE ∧
        alistLookup stE name = some e ∧
        alistLookup e "packs" = some (.P ps) ∧
        alistLookup ps n = some data)) := by
  constructor
  · intro hshape hnum hdata hold
    obtain ⟨e, he, hp⟩ := initState_shape upsData name hshape
    have hall : ∀ p ∈ (alistInsert (oldPacks upsData name) n data).map Prod.snd,
        (p.chgDsgState).isSome := by
      intro p hmem
      rcases alistInsert_snd_mem (oldPacks upsData name) n data p hmem with rfl | hmem'
      · exact hdata.2
      · exact (hold p hmem').2
    obtain ⟨r, hpl⟩ := packLoop_ok_of_all_states
      (alistInsert e "packs" (.P (alistInsert (oldPacks upsData name) n data)))
      ((alistInsert (oldPacks upsData name) n data).map Prod.snd) zeroSums "CHRG" "OL" hall
    obtain ⟨s, bs, us⟩ := r
    have hok : updateUpsData upsData name data now = .ok
        (alistInsert (initState upsData name) name
          (finishEntry
            (writeSums (alistInsert e "packs"
              (.P (alistInsert (oldPacks upsData name) n data))) s)
            s (alistInsert (oldPacks upsData name) n data).length bs us now)) := by
      simp only [updateUpsData, hnum, he, hp, hpl]
    have hcount : (alistInsert (oldPacks upsData name) n data).length ≠ 0 := by
      intro hc
      exact alistInsert_ne_nil (oldPacks upsData name) n data (List.length_eq_zero.mp hc)
    have hs := packLoop_ok_sums _ _ _ _ _ _ _ _ hpl
    rw [foldl_addSums] at hs
    have hsoc : s.soc =
        ((alistInsert (oldPacks upsData name) n data).map (fun p => (p.2).soc.getD 0)).sum := by
      rw [hs]
      simp [zeroSums, List.map_map, Function.comp_def]
    refine ⟨_, _, hok, alistLookup_insert_self _ _ _, ?_, ?_⟩
    · intro k hk
      fin_cases hk
      · rw [finishEntry_charge]; rfl
      · rw [finishEntry_capacity]; rfl
      · rw [finishEntry_capacity_nominal]; rfl
      · rw [finishEntry_voltage]; rfl
      · rw [finishEntry_temperature]; rfl
      · rw [finishEntry_runtime]; rfl
      · rw [finishEntry_battery_status]; rfl
      · rw [finishEntry_timestamp]; rfl
      · rw [finishEntry_ups_status]; rfl
    · rw [finishEntry_charge, meanVal_eq_div _ _ hcount, hsoc]
  · intro hshape hnum hmiss
    obtain ⟨e, he, hp⟩ := initState_shape upsData name hshape
    obtain ⟨acc', hpl⟩ := packLoop_error_of_missing
      (alistInsert e "packs" (.P (alistInsert (oldPacks upsData name) n data)))
      ((alistInsert (oldPacks upsData name) n data).map Prod.snd) zeroSums "CHRG" "OL" hmiss
    have herr : updateUpsData upsData name data now = .error
        (alistInsert (initState upsData name) name
          (writeSums (alistInsert e "packs"
            (.P (alistInsert (oldPacks upsData name) n data))) acc')) := by
      simp only [updateUpsData, hnum, he, hp, hpl]
    refine ⟨_, _, alistInsert (oldPacks upsData name) n data, herr,
      alistLookup_insert_self _ _ _, ?_, alistLookup_insert_self _ _ _⟩
    rw [writeSums_packs]
    exact alistLookup_insert_self _ _ _

theorem mask_byte_involutive (b s : Nat) (hb : b < 256) :
    ((b ^^^ s) % 256 ^^^ s) % 256 = b := by
  have h256 : (256 : Nat) = 2 ^ 8 := rfl
  apply Nat.eq_of_testBit_eq
  intro i
  rcases lt_or_ge i 8 with hi | hi
  · rw [h256, Nat.testBit_mod_two_pow, Nat.testBit_xor, Nat.testBit_mod_two_pow,
      Nat.testBit_xor]
    have : decide (i < 8) = true := decide_eq_true hi
    rw [this]
    cases hbi : b.testBit i <;> cases hsi : s.testBit i <;> simp
  · have h2i : 256 ≤ 2 ^ i := by
      calc (256 : Nat) = 2 ^ 8 := by norm_num
      _ ≤ 2 ^ i := Nat.pow_le_pow_right (by omega) hi
    have hbf : b.testBit i = false :=
      Nat.testBit_lt_two_pow (lt_of_lt_of_le hb h2i)
    rw [h256, Nat.testBit_mod_two_pow, hbf]
    have : decide (i < 8) = false := decide_eq_false (by omega)
    rw [this]
    simp

/-- C4: the per-byte payload mask applied when the envelope's encryption flag
is set is its own inverse: masking twice with the same sequence number
restores every byte sequence of actual bytes (values below 256). -/
theorem c4_mask_involutive (pdata : List Nat) (seq : Nat)
    (h : ∀ b ∈ pdata, b < 256) :
    maskBytes (maskBytes pdata seq) seq = pdata := by
  induction pdata with
  | nil => rfl
  | cons b rest ih =>
    have hb := h b (List.mem_cons_self b rest)
    have hrest : ∀ x ∈ rest, x < 256 := fun x hx => h x (List.mem_cons_of_mem b hx)
    simp only [maskBytes, List.map_cons] at *
    rw [mask_byte_involutive b seq hb]
    have := ih hrest
    simp only [maskBytes] at this
    rw [this]

/-- C5: `decode` never raises to its caller — every exception of its body is
mapped to `None` by the catch-all — it yields a record only when the outer
frame parses and the first message carries one of the two known
`(cmd_func, cmd_id)` pairs `(32, 50)` and `(254, 21)`, and it yields `None`
both when the outer parse fails (malformed/truncated frame) and for every
unrecognized pair. -/
theorem c5_decode_total_and_dispatch
    (parseOuter : List Nat → Except String (List EnvMsg))
    (parseBMS parseDisplay : List Nat → Except String PackRecord)
    (binary : List Nat) (serial : String) :
    (∀ er, decodeCore parseOuter parseBMS parseDisplay binary = .error er →
      decodeRun parseOuter parseBMS parseDisplay binary serial = none) ∧
    (∀ r, decodeRun parseOuter parseBMS parseDisplay binary serial = some r →
      ∃ m rest, parseOuter binary = .ok (m :: rest) ∧
        ((m.cmd_func = 32 ∧ m.cmd_id = 50) ∨ (m.cmd_func = 254 ∧ m.cmd_id = 21))) ∧
    (∀ er, parseOuter binary = .error er →
      decodeRun parseOuter parseBMS parseDisplay binary serial = none) ∧
    (∀ m rest, parseOuter binary = .ok (m :: rest) →
      ¬ (m.cmd_func = 32 ∧ m.cmd_id = 50) → ¬ (m.cmd_func = 254 ∧ m.cmd_id = 21) →
      decodeRun parseOuter parseBMS parseDisplay binary serial = none) := by
  refine ⟨?_, ?_, ?_, ?_⟩
  · intro er her
    simp [decodeRun, her]
  · intro r hr
    simp only [decodeRun] at hr
    cases hc : decodeCore parseOuter parseBMS parseDisplay binary with
    | error er => simp [hc] at hr
    | ok r' =>
      simp only [hc] at hr
      simp only [decodeCore] at hc
      cases ho : parseOuter binary with
      | error er => simp [ho] at hc
      | ok msgs =>
        simp only [ho] at hc
        cases msgs with
        | nil => simp at hc
        | cons m rest =>
          refine ⟨m, rest, rfl, ?_⟩
          by_cases h1 : m.cmd_func = 32 ∧ m.cmd_id = 50
          · exact Or.inl h1
          · by_cases h2 : m.cmd_func = 254 ∧ m.cmd_id = 21
            · exact Or.inr h2
            · simp [h1, h2, hr] at hc
  · intro er her
    simp [decodeRun, decodeCore, her]
  · intro m rest ho h1 h2
    simp [decodeRun, decodeCore, ho, if_neg h1, if_neg h2]

/-- C9: a delivered message that matches a configured device and whose
payload opens with the two JSON bytes 0x7B 0x22 never invokes the binary
decoder and never mutates any device's stored state — the handler returns
before any decode attempt (via the `NameError` its logging slip raises,
absorbed by the catch-all). -/
theorem c9_json_guard (devices : List Device)
    (parseBin : List Nat → String → Option PackRecord)
    (upsData : UpsData) (topic : String) (rest : List Nat) (now : Int) (d : Device)
    (hfind : devices.find? (fun dv => pyContains dv.serial.data topic.data) = some d) :
    onMqttMessage devices parseBin upsData topic (0x7B :: 0x22 :: rest) now =
      (upsData, false) := by
  simp only [onMqttMessage, hfind]
  simp

/-! ### Lemmas about the Python string primitives -/

theorem leadsWith_append_self (pre rest : List Char) :
    leadsWith (pre ++ rest) pre = true := by
  induction pre with
  | nil => cases rest <;> rfl
  | cons c pre ih => simp [leadsWith, ih]

theorem seekSplit_of_leads (s sep : List Char) (hsep : sep ≠ []) (hs : s ≠ [])
    (h : leadsWith s sep = true) :
    seekSplit s sep = some ([], s.drop sep.length) := by
  cases s with
  | nil => exact absurd rfl hs
  | cons c rest => simp [seekSplit, h]

theorem pySplitAux_of_none (sep : List Char) (fuel : Nat) (s : List Char)
    (h : seekSplit s sep = none) : pySplitAux sep fuel s = [s] := by
  cases fuel with
  | zero => rfl
  | succ k => simp [pySplitAux, h]

/-- Splitting `sep ++ rest` on `sep` when `sep` does not occur in `rest`. -/
theorem pySplit_sep_append (sep rest : List Char) (hsep : sep ≠ [])
    (h : seekSplit rest sep = none) :
    pySplit (sep ++ rest) sep = [[], rest] := by
  have hlead := leadsWith_append_self sep rest
  have hne : sep ++ rest ≠ [] := by
    cases sep with
    | nil => exact absurd rfl hsep
    | cons c t => simp
  have hseek : seekSplit (sep ++ rest) sep = some ([], rest) := by
    rw [seekSplit_of_leads _ _ hsep hne hlead, List.drop_left]
  rw [pySplit, if_neg hsep]
  show pySplitAux sep ((sep ++ rest).length + 1) (sep ++ rest) = [[], rest]
  simp only [pySplitAux, hseek]
  rw [pySplitAux_of_none _ _ _ h]

theorem seekSplit_shrinks (sep : List Char) (hsep : sep ≠ []) :
    ∀ s b a, seekSplit s sep = some (b, a) → a.length < s.length := by
  intro s
  induction s with
  | nil => intro b a h; exact absurd h (by simp [seekSplit])
  | cons c rest ih =>
    intro b a h
    simp only [seekSplit] at h
    by_cases hl : leadsWith (c :: rest) sep = true
    · rw [if_pos hl] at h
      injection h with h'
      have ha : a = (c :: rest).drop sep.length := congrArg Prod.snd h'.symm
      have hslen : 1 ≤ sep.length := by
        cases sep with
        | nil => exact absurd rfl hsep
        | cons x t => simp
      rw [ha, List.length_drop]
      simp only [List.length_cons]
      omega
    · rw [if_neg hl] at h
      cases hs : seekSplit rest sep with
      | none => rw [hs] at h; exact absurd h (by simp)
      | some p =>
        obtain ⟨b', a'⟩ := p
        rw [hs] at h
        injection h with h'
        have hb : b = c :: b' := (congrArg Prod.fst h'.symm)
        have ha : a = a' := (congrArg Prod.snd h'.symm)
        have := ih b' a' hs
        rw [ha]
        simp only [List.length_cons]
        omega

theorem pySplitAux_fuel (sep : List Char) (hsep : sep ≠ []) :
    ∀ f1 f2 s, s.length < f1 → s.length < f2 →
      pySplitAux sep f1 s = pySplitAux sep f2 s := by
  intro f1
  induction f1 with
  | zero => intro f2 s h1 _; exact absurd h1 (by omega)
  | succ k ih =>
    intro f2 s h1 h2
    cases f2 with
    | zero => exact absurd h2 (by omega)
    | succ k2 =>
      cases hs : seekSplit s sep with
      | none =>
        simp only [pySplitAux, hs]
      | some p =>
        obtain ⟨b, a⟩ := p
        have hlt := seekSplit_shrinks sep hsep s b a hs
        simp only [pySplitAux, hs]
        rw [ih k2 a (by omega) (by omega)]

/-- Splitting `a ++ c0 :: rest` on the single character `c0` when `a` is free
of `c0`. -/
theorem seekSplit_single (c0 : Char) (a rest : List Char)
    (ha : ∀ c ∈ a, ¬ (c = c0)) :
    seekSplit (a ++ c0 :: rest) [c0] = some (a, rest) := by
  induction a with
  | nil =>
    have hl : leadsWith (c0 :: rest) [c0] = true := by
      simp [leadsWith]
    simp [seekSplit, hl]
  | cons c a' ih =>
    have hc := ha c (List.mem_cons_self c a')
    have hl : leadsWith (c :: (a' ++ c0 :: rest)) [c0] = false := by
      simp [leadsWith, hc]
    have ih' := ih (fun x hx => ha x (List.mem_cons_of_mem c hx))
    simp [seekSplit, hl, ih']

theorem seekSplit_single_none (c0 : Char) (s : List Char)
    (h : ∀ c ∈ s, ¬ (c = c0)) : seekSplit s [c0] = none := by
  induction s with
  | nil => rfl
  | cons c rest ih =>
    have hc := h c (List.mem_cons_self c rest)
    have hl : leadsWith (c :: rest) [c0] = false := by
      simp [leadsWith, hc]
    have ih' := ih (fun x hx => h x (List.mem_cons_of_mem c hx))
    simp [seekSplit, hl, ih']

theorem pySplit_cons_single (c0 : Char) (a rest : List Char)
    (ha : ∀ c ∈ a, ¬ (c = c0)) :
    pySplit (a ++ c0 :: rest) [c0] = a :: pySplit rest [c0] := by
  have hsep : ([c0] : List Char) ≠ [] := by simp
  have hseek := seekSplit_single c0 a rest ha
  rw [pySplit, if_neg hsep, pySplit, if_neg hsep]
  show pySplitAux [c0] ((a ++ c0 :: rest).length + 1) (a ++ c0 :: rest) =
    a :: pySplitAux [c0] (rest.length + 1) rest
  simp only [pySplitAux, hseek]
  show a :: pySplitAux [c0] (a ++ c0 :: rest).length rest =
    a :: pySplitAux [c0] (rest.length + 1) rest
  rw [pySplitAux_fuel [c0] hsep (a ++ c0 :: rest).length (rest.length + 1) rest
    (by simp only [List.length_append, List.length_cons]; omega) (by omega)]

theorem ne_of_data_head (x y : String) (cx cy : Char) (lx ly : List Char)
    (hx : x.data = cx :: lx) (hy : y.data = cy :: ly) (hne : ¬ (cx = cy)) :
    ¬ (x = y) := by
  intro h
  rw [h, hy] at hx
  injection hx with h1 _
  exact hne h1.symm

theorem leadsWith_false_of_head (s t : List Char) (cs ct : Char) (ls lt : List Char)
    (hs : s = cs :: ls) (ht : t = ct :: lt) (hne : ¬ (cs = ct)) :
    leadsWith s t = false := by
  subst hs
  subst ht
  simp [leadsWith, hne]

/-- Evaluation of `_process_nut_command` on a `USERNAME` command: only the
literal `USERNAME admin` is recognized; any other argument falls through the
`elif` chain to the `return None` path. -/
theorem processNut_username (devices : List Device) (upsData : UpsData) (arg : String) :
    processNutCommand devices upsData ("USERNAME " ++ arg) =
      if arg = "admin" then some "OK
" else none := by
  have hdata : ("USERNAME " ++ arg).data = 'U' :: ("SERNAME ".data ++ arg.data) := by
    rw [String.data_append]
    rfl
  have h1 : ¬ ("USERNAME " ++ arg = "LIST UPS") :=
    ne_of_data_head _ _ 'U' 'L' _ _ hdata rfl (by decide)
  have h2 : leadsWith ("USERNAME " ++ arg).data "LIST VAR ".data = false :=
    leadsWith_false_of_head _ _ 'U' 'L' _ _ hdata rfl (by decide)
  have h3 : leadsWith ("USERNAME " ++ arg).data "GET VAR ".data = false :=
    leadsWith_false_of_head _ _ 'U' 'G' _ _ hdata rfl (by decide)
  have h5 : ¬ ("USERNAME " ++ arg = "PASSWORD admin") :=
    ne_of_data_head _ _ 'U' 'P' _ _ hdata rfl (by decide)
  have h6 : ¬ ("USERNAME " ++ arg = "LOGIN") :=
    ne_of_data_head _ _ 'U' 'L' _ _ hdata rfl (by decide)
  have h7 : ¬ ("USERNAME " ++ arg = "LOGOUT") :=
    ne_of_data_head _ _ 'U' 'L' _ _ hdata rfl (by decide)
  rw [processNutCommand, if_neg h1]
  rw [h2, h3]
  simp only [Bool.false_eq_true, if_false]
  by_cases harg : arg = "admin"
  · subst harg
    rw [if_pos (show ("USERNAME " ++ "admin" : String) = "USERNAME admin" by decide),
      if_pos rfl]
  · have h4 : ¬ ("USERNAME " ++ arg = "USERNAME admin") := by
      intro h
      apply harg
      have hd := congrArg String.data h
      rw [String.data_append] at hd
      exact String.ext (List.append_cancel_left hd)
    rw [if_neg h4, if_neg h5, if_neg h6, if_neg h7, if_neg harg]

/-- Evaluation of `_process_nut_command` on a `PASSWORD` command. -/
theorem processNut_password (devices : List Device) (upsData : UpsData) (arg : String) :
    processNutCommand devices upsData ("PASSWORD " ++ arg) =
      if arg = "admin" then some "OK
" else none := by
  have hdata : ("PASSWORD " ++ arg).data = 'P' :: ("ASSWORD ".data ++ arg.data) := by
    rw [String.data_append]
    rfl
  have h1 : ¬ ("PASSWORD " ++ arg = "LIST UPS") :=
    ne_of_data_head _ _ 'P' 'L' _ _ hdata rfl (by decide)
  have h2 : leadsWith ("PASSWORD " ++ arg).data "LIST VAR ".data = false :=
    leadsWith_false_of_head _ _ 'P' 'L' _ _ hdata rfl (by decide)
  have h3 : leadsWith ("PASSWORD " ++ arg).data "GET VAR ".data = false :=
    leadsWith_false_of_head _ _ 'P' 'G' _ _ hdata rfl (by decide)
  have h4 : ¬ ("PASSWORD " ++ arg = "USERNAME admin") :=
    ne_of_data_head _ _ 'P' 'U' _ _ hdata rfl (by decide)
  have h6 : ¬ ("PASSWORD " ++ arg = "LOGIN") :=
    ne_of_data_head _ _ 'P' 'L' _ _ hdata rfl (by decide)
  have h7 : ¬ ("PASSWORD " ++ arg = "LOGOUT") :=
    ne_of_data_head _ _ 'P' 'L' _ _ hdata rfl (by decide)
  rw [processNutCommand, if_neg h1]
  rw [h2, h3]
  simp only [Bool.false_eq_true, if_false]
  by_cases harg : arg = "admin"
  · subst harg
    rw [if_neg h4,
      if_pos (show ("PASSWORD " ++ "admin" : String) = "PASSWORD admin" by decide),
      if_pos rfl]
  · have h5 : ¬ ("PASSWORD " ++ arg = "PASSWORD admin") := by
      intro h
      apply harg
      have hd := congrArg String.data h
      rw [String.data_append] at hd
      exact String.ext (List.append_cancel_left hd)
    rw [if_neg h4, if_neg h5, if_neg h6, if_neg h7, if_neg harg]

/-- Evaluation of `_process_nut_command` on a `LIST VAR <name>` command (for
a device name not containing the split separator). -/
theorem processNut_listvar (devices : List Device) (upsData : UpsData) (name : String)
    (hname : seekSplit name.data "LIST VAR ".data = none) :
    processNutCommand devices upsData ("LIST VAR " ++ name) =
      if (alistLookup upsData name).isSome then some (getUpsVariables upsData name)
      else some "ERR UNKNOWN-UPS
" := by
  have hdata : ("LIST VAR " ++ name).data = "LIST VAR ".data ++ name.data :=
    String.data_append _ _
  have h1 : ¬ ("LIST VAR " ++ name = "LIST UPS") := by
    intro h
    have hd := congrArg String.data h
    rw [String.data_append] at hd
    have hl := congrArg List.length hd
    simp only [List.length_append] at hl
    have h9 : ("LIST VAR ".data).length = 9 := rfl
    have h8 : ("LIST UPS".data).length = 8 := rfl
    rw [h9, h8] at hl
    omega
  have h2 : leadsWith ("LIST VAR " ++ name).data "LIST VAR ".data = true := by
    rw [hdata]
    exact leadsWith_append_self _ _
  have hsplit : pySplit ("LIST VAR " ++ name).data "LIST VAR ".data = [[], name.data] := by
    rw [hdata]
    exact pySplit_sep_append _ _ (by decide) hname
  rw [processNutCommand, if_neg h1]
  rw [h2]
  simp only [if_true, hsplit]
  rfl

/-- C6 counterexample: a `USERNAME` or `PASSWORD` command with any argument
other than the literal `admin` receives no reply at all, contradicting the
claim that these commands always reply `OK`. -/
theorem c6_counterexample :
    processNutCommand [] [] "USERNAME bob" = none ∧
    processNutCommand [] [] "PASSWORD hunter" = none ∧
    processNutCommand [] [] "USERNAME admin" = some "OK
" := by
  refine ⟨by decide, by decide, by decide⟩

/-- C6 (amended): a `USERNAME <name>` or `PASSWORD <pw>` command replies `OK`
exactly when the argument is the literal `admin`; any other argument falls
through the command dispatch with no response. -/
theorem c6_username_password_admin_only (devices : List Device) (upsData : UpsData)
    (arg : String) :
    (processNutCommand devices upsData ("USERNAME " ++ arg) =
      if arg = "admin" then some "OK
" else none) ∧
    (processNutCommand devices upsData ("PASSWORD " ++ arg) =
      if arg = "admin" then some "OK
" else none) :=
  ⟨processNut_username devices upsData arg, processNut_password devices upsData arg⟩

/-- C1 counterexample: the device `eco` is in the configured device list, no
telemetry has been received, and `LIST VAR eco` / `GET VAR eco ...` reply
`ERR UNKNOWN-UPS` — not the bracketed default list the claim requires. -/
theorem c1_counterexample :
    (([⟨"eco", "SN1"⟩] : List Device).map Device.ups_name).contains "eco" = true ∧
    processNutCommand [⟨"eco", "SN1"⟩] [] "LIST VAR eco" = some "ERR UNKNOWN-UPS
" ∧
    processNutCommand [⟨"eco", "SN1"⟩] [] "GET VAR eco battery.charge" =
      some "ERR UNKNOWN-UPS
" := by
  refine ⟨by decide, by decide, by decide⟩

/-- Evaluation of `_process_nut_command` on a `GET VAR <dev> <var>` command
(for space-free device and variable tokens). -/
theorem processNut_getvar (devices : List Device) (upsData : UpsData) (dev var : String)
    (hdev : ∀ c ∈ dev.data, ¬ (c = ' ')) (hvar : ∀ c ∈ var.data, ¬ (c = ' ')) :
    processNutCommand devices upsData ("GET VAR " ++ dev ++ " " ++ var) =
      match alistLookup upsData dev with
      | some e => some (formatGetVar dev var ((alistLookup e var).getD (.I 0)))
      | none => some "ERR UNKNOWN-UPS
" := by
  have hdata : ("GET VAR " ++ dev ++ " " ++ var).data =
      'G' :: ("ET VAR ".data ++ dev.data ++ " ".data ++ var.data) := by
    rw [String.data_append, String.data_append, String.data_append]
    rfl
  have hdata2 : ("GET VAR " ++ dev ++ " " ++ var).data =
      "GET VAR ".data ++ (dev.data ++ ' ' :: var.data) := by
    rw [String.data_append, String.data_append, String.data_append,
      List.append_assoc, List.append_assoc]
    rfl
  have hdata3 : ("GET VAR " ++ dev ++ " " ++ var).data =
      "GET".data ++ ' ' :: ("VAR".data ++ ' ' :: (dev.data ++ ' ' :: var.data)) := by
    rw [hdata2]
    rfl
  have h1 : ¬ ("GET VAR " ++ dev ++ " " ++ var = "LIST UPS") :=
    ne_of_data_head _ _ 'G' 'L' _ _ hdata rfl (by decide)
  have h2 : leadsWith ("GET VAR " ++ dev ++ " " ++ var).data "LIST VAR ".data = false :=
    leadsWith_false_of_head _ _ 'G' 'L' _ _ hdata rfl (by decide)
  have h3 : leadsWith ("GET VAR " ++ dev ++ " " ++ var).data "GET VAR ".data = true := by
    rw [hdata2]
    exact leadsWith_append_self _ _
  have hvarsplit : pySplit var.data [' '] = [var.data] := by
    rw [pySplit, if_neg (by decide)]
    exact pySplitAux_of_none _ _ _ (seekSplit_single_none ' ' var.data hvar)
  have hsplit : pySplit ("GET VAR " ++ dev ++ " " ++ var).data [' '] =
      ["GET".data, "VAR".data, dev.data, var.data] := by
    rw [hdata3, pySplit_cons_single ' ' "GET".data _ (by decide),
      pySplit_cons_single ' ' "VAR".data _ (by decide),
      pySplit_cons_single ' ' dev.data _ hdev, hvarsplit]
  rw [processNutCommand, if_neg h1]
  rw [h2]
  simp only [Bool.false_eq_true, if_false]
  rw [h3]
  simp only [if_true, hsplit]
  rfl

/-- C1 (amended): the `LIST VAR <device>` and `GET VAR <device> <var>`
replies are determined by the telemetry store alone, independent of the
configured device list: `ERR UNKNOWN-UPS` exactly when no telemetry entry
exists under the name (which for a configured device means before its first
update), and the begin/end-bracketed variable list respectively the
single-line value exactly when an entry exists. -/
theorem c1_reply_depends_on_telemetry_store (devices devices' : List Device)
    (upsData : UpsData) (name : String)
    (hname : seekSplit name.data "LIST VAR ".data = none) :
    (processNutCommand devices upsData ("LIST VAR " ++ name) =
      processNutCommand devices' upsData ("LIST VAR " ++ name)) ∧
    (alistLookup upsData name = none →
      processNutCommand devices upsData ("LIST VAR " ++ name) =
        some "ERR UNKNOWN-UPS\n") ∧
    (∀ e, alistLookup upsData name = some e →
      ∃ body, processNutCommand devices upsData ("LIST VAR " ++ name) =
        some ("BEGIN LIST VAR\n" ++ body ++ "\nEND LIST VAR\n")) ∧
    (∀ var, (∀ c ∈ name.data, ¬ (c = ' ')) → (∀ c ∈ var.data, ¬ (c = ' ')) →
      (processNutCommand devices upsData ("GET VAR " ++ name ++ " " ++ var) =
        processNutCommand devices' upsData ("GET VAR " ++ name ++ " " ++ var)) ∧
      (alistLookup upsData name = none →
        processNutCommand devices upsData ("GET VAR " ++ name ++ " " ++ var) =
          some "ERR UNKNOWN-UPS\n") ∧
      (∀ e, alistLookup upsData name = some e →
        processNutCommand devices upsData ("GET VAR " ++ name ++ " " ++ var) =
          some (formatGetVar name var ((alistLookup e var).getD (.I 0))))) := by
  refine ⟨?_, ?_, ?_, ?_⟩
  · rw [processNut_listvar devices upsData name hname,
      processNut_listvar devices' upsData name hname]
  · intro h
    rw [processNut_listvar devices upsData name hname, h]
    rfl
  · intro e he
    have hg : ∃ body, getUpsVariables upsData name =
        "BEGIN LIST VAR\n" ++ body ++ "\nEND LIST VAR\n" := by
      unfold getUpsVariables
      rw [he]
      exact ⟨_, rfl⟩
    obtain ⟨body, hb⟩ := hg
    rw [processNut_listvar devices upsData name hname, he]
    refine ⟨body, ?_⟩
    simp only [Option.isSome_some, if_true, hb]
  · intro var hn hv
    refine ⟨?_, ?_, ?_⟩
    · rw [processNut_getvar devices upsData name var hn hv,
        processNut_getvar devices' upsData name var hn hv]
    · intro h
      rw [processNut_getvar devices upsData name var hn hv, h]
    · intro e he
      rw [processNut_getvar devices upsData name var hn hv, he]

/-- Closed instance of the C1 amended theorem, exercising both the
`LIST VAR` and the `GET VAR` configuration-independence. -/
theorem c1_amended_witness :
    (processNutCommand [] [("eco", [("packs", NutValue.P [])])] ("LIST VAR " ++ "eco") =
      processNutCommand [⟨"x", "y"⟩] [("eco", [("packs", NutValue.P [])])]
        ("LIST VAR " ++ "eco")) ∧
    (processNutCommand [] [("eco", [("packs", NutValue.P [])])]
        ("GET VAR " ++ "eco" ++ " " ++ "battery.charge") =
      processNutCommand [⟨"x", "y"⟩] [("eco", [("packs", NutValue.P [])])]
        ("GET VAR " ++ "eco" ++ " " ++ "battery.charge")) :=
  ⟨(c1_reply_depends_on_telemetry_store [] [⟨"x", "y"⟩]
      [("eco", [("packs", NutValue.P [])])] "eco" (by decide)).1,
    ((c1_reply_depends_on_telemetry_store [] [⟨"x", "y"⟩]
      [("eco", [("packs", NutValue.P [])])] "eco" (by decide)).2.2.2 "battery.charge"
      (by decide) (by decide)).1⟩

/-- C8: every `LIST UPS` request replies with the begin/end-bracketed list of
the configured device names in configuration order, each followed by the
fixed description, independent of the telemetry store; with distinct
configured names every device line appears exactly once. -/
theorem c8_list_ups (devices : List Device) (upsData : UpsData) :
    processNutCommand devices upsData "LIST UPS" =
      some ("BEGIN LIST UPS
" ++
        String.intercalate "
" (devices.map (fun d => d.ups_name ++ upsDescr)) ++
        "
END LIST UPS
") ∧
    ((devices.map Device.ups_name).Nodup →
      ∀ d ∈ devices,
        (devices.map (fun d' => d'.ups_name ++ upsDescr)).count
          (d.ups_name ++ upsDescr) = 1) := by
  constructor
  · rw [processNutCommand, if_pos rfl]
  · intro hnd d hd
    have hmap : devices.map (fun d' => d'.ups_name ++ upsDescr) =
        (devices.map Device.ups_name).map (fun s => s ++ upsDescr) := by
      rw [List.map_map]
      rfl
    have hinj : Function.Injective (fun s : String => s ++ upsDescr) := by
      intro a b hab
      have hd' := congrArg String.data hab
      rw [String.data_append, String.data_append] at hd'
      exact String.ext (List.append_cancel_right hd')
    have hnodup : ((devices.map Device.ups_name).map (fun s => s ++ upsDescr)).Nodup :=
      hnd.map hinj
    rw [hmap]
    apply List.count_eq_one_of_mem hnodup
    exact hmap ▸ List.mem_map_of_mem _ hd

theorem natStr_lt_ten (d : Nat) (hd : d < 10) : natStr d = String.mk [natDigitChar d] := by
  rw [natStr]
  simp [natStrAux, hd]

/-- The `.1f` formatter always renders exactly one digit after the decimal
point. -/
theorem format1f_one_decimal (q : Rat) :
    ∃ intPart d, d < 10 ∧ format1f q = intPart ++ "." ++ natStr d ∧
      (natStr d).data.length = 1 := by
  refine ⟨(if rhe (qmul q 10) < 0 then "-" else "") ++
      natStr ((rhe (qmul q 10)).natAbs / 10),
    (rhe (qmul q 10)).natAbs % 10, Nat.mod_lt _ (by norm_num), ?_, ?_⟩
  · rw [format1f]
  · rw [natStr_lt_ten _ (Nat.mod_lt _ (by norm_num))]
    rfl

theorem natStrAux_digit_chars :
    ∀ fuel n c, c ∈ natStrAux fuel n → ∃ d, d < 10 ∧ c = natDigitChar d := by
  intro fuel
  induction fuel with
  | zero =>
    intro n c h
    simp [natStrAux] at h
  | succ k ih =>
    intro n c h
    by_cases hn : n < 10
    · simp [natStrAux, hn] at h
      exact ⟨n, hn, h⟩
    · simp [natStrAux, hn] at h
      rcases h with h | h
      · exact ih _ _ h
      · exact ⟨n % 10, Nat.mod_lt _ (by norm_num), h⟩

theorem natDigitChar_ne_dot (d : Nat) (hd : d < 10) : ¬ (natDigitChar d = '.') := by
  interval_cases d <;> decide

/-- Python `str` of an int contains no decimal point. -/
theorem pyStrInt_no_dot (i : Int) : '.' ∉ (pyStrInt i).data := by
  have hnat : ∀ m : Nat, '.' ∉ (natStr m).data := by
    intro m hmem
    obtain ⟨d, hd, hcd⟩ := natStrAux_digit_chars (m + 1) m '.' hmem
    exact natDigitChar_ne_dot d hd hcd.symm
  rw [pyStrInt]
  by_cases h : i < 0
  · rw [if_pos h]
    intro hmem
    rw [String.data_append] at hmem
    rcases List.mem_append.mp hmem with hm | hm
    · simp at hm
    · exact hnat _ hm
  · rw [if_neg h]
    exact hnat _

def fromOk (x : Except UpsData UpsData) : UpsData :=
  match x with
  | .ok s => s
  | .error s => s

def c7pack (i : Nat) (socv : Int) : PackRecord :=
  ⟨some i, some 0, some socv, some 12000, some 25, some 10000, some 20000, some 50⟩

/-- A state reached by four successive updates whose soc values average to
1/4: Python renders the resulting `battery.charge` float `0.25` via plain
interpolation. -/
def c7State : UpsData :=
  fromOk (updateUpsData
    (fromOk (updateUpsData
      (fromOk (updateUpsData
        (fromOk (updateUpsData [] "eco" (c7pack 0 1) 1700000000))
        "eco" (c7pack 1 0) 1700000001))
      "eco" (c7pack 2 0) 1700000002))
    "eco" (c7pack 3 0) 1700000003)

set_option maxRecDepth 4000 in
/-- C7 counterexample: in a `LIST VAR` reply the float `battery.charge`
value renders through plain interpolation (no `.1f`), here as `0.25` with
two digits after the decimal point — refuting that every float in every
response renders with exactly one decimal digit. -/
theorem c7_counterexample :
    processNutCommand [⟨"eco", "SN1"⟩] c7State "LIST VAR eco" =
      some ("BEGIN LIST VAR
VAR eco battery.charge 0.25
VAR eco battery.capacity 40.0
VAR eco battery.capacity.nominal 80.0
VAR eco battery.voltage 12.0
VAR eco battery.temperature 25.0
VAR eco battery.runtime 1800
VAR eco battery.status CHRG
VAR eco ups.status OL
VAR eco ups.timestamp 1700000003
END LIST VAR
") ∧
    (pyStrFloat (Rat.divInt 1 4)).data = ['0', '.', '2', '5'] := by
  refine ⟨by decide, by decide⟩

/-- C7 (amended): `GET VAR` replies format float values with `.1f`, which
always renders exactly one digit after the decimal point, and integer
counters render with no decimal point at all; but in `LIST VAR` replies only
capacity, capacity.nominal and voltage use `.1f` — `battery.charge` and
`battery.temperature` use plain interpolation, which can render a different
number of decimals (see the counterexample). -/
theorem c7_getvar_formatting (devices : List Device) (upsData : UpsData)
    (dev var : String) (q : Rat) (e : NutEntry)
    (hdev : ∀ c ∈ dev.data, ¬ (c = ' ')) (hvar : ∀ c ∈ var.data, ¬ (c = ' '))
    (he : alistLookup upsData dev = some e)
    (hq : alistLookup e var = some (.F q)) :
    (processNutCommand devices upsData ("GET VAR " ++ dev ++ " " ++ var) =
      some ("VAR " ++ dev ++ " " ++ var ++ " " ++ format1f q ++ "
")) ∧
    (∃ intPart d, d < 10 ∧ format1f q = intPart ++ "." ++ natStr d ∧
      (natStr d).data.length = 1) ∧
    (∀ i : Int, '.' ∉ (pyStrInt i).data) := by
  refine ⟨?_, format1f_one_decimal q, pyStrInt_no_dot⟩
  rw [processNut_getvar devices upsData dev var hdev hvar, he]
  simp only [hq, Option.getD_some]
  rfl

/-- Closed instance of the C7 amended theorem. -/
theorem c7_amended_witness :
    processNutCommand [] [("eco", [("battery.voltage", NutValue.F (mkRat 25 2))])]
      ("GET VAR " ++ "eco" ++ " " ++ "battery.voltage") =
      some ("VAR " ++ "eco" ++ " " ++ "battery.voltage" ++ " " ++
        format1f (mkRat 25 2) ++ "
") :=
  (c7_getvar_formatting [] [("eco", [("battery.voltage", NutValue.F (mkRat 25 2))])]
    "eco" "battery.voltage" (mkRat 25 2) [("battery.voltage", NutValue.F (mkRat 25 2))]
    (by decide) (by decide) (by decide) (by decide)).1

/-- Closed instance of the C8 theorem. -/
def c2pack : PackRecord :=
  ⟨some 0, some 1, some 80, some 12000, some 25, some 10000, some 20000, some 50⟩

def c2wSt : UpsData := fromOk (updateUpsData [] "eco" c2pack 100)

/-- Closed instance of the C2 theorem. -/
theorem c2_witness :
    updateUpsData [] "eco" c2pack 100 = .ok c2wSt ∧
    ∃ e ps, alistLookup c2wSt "eco" = some e ∧
      alistLookup e "packs" = some (NutValue.P ps) ∧ 1 ≤ ps.length ∧
      alistLookup e "battery.charge" =
        some (.F ((((ps.map (fun p => (p.2).soc.getD 0)).sum : ℚ)) / ((ps.length : ℚ)))) :=
  ⟨by decide, by
    obtain ⟨e, ps, h1, h2, h3, h4, _⟩ :=
      c2_aggregate_means [] "eco" c2pack 100 c2wSt (by decide)
    exact ⟨e, ps, h1, h2, h3, h4⟩⟩

def c3pack0 : PackRecord :=
  ⟨some 0, some 0, some 80, some 12000, some 25, some 10000, some 20000, some 50⟩

def c3pack1 : PackRecord :=
  ⟨some 1, some 1, some 70, some 11000, some 26, some 9000, some 20000, some 40⟩

def c3wSt0 : UpsData := fromOk (updateUpsData [] "eco" c3pack0 100)

def c3wSt1 : UpsData := fromOk (updateUpsData c3wSt0 "eco" c3pack1 101)

/-- Closed instance of the C3 theorem. -/
theorem c3_witness :
    updateUpsData c3wSt0 "eco" c3pack1 101 = .ok c3wSt1 ∧
    ∃ e ps, alistLookup c3wSt1 "eco" = some e ∧
      alistLookup e "packs" = some (NutValue.P ps) :=
  ⟨by decide, by
    obtain ⟨e, ps, h1, h2, _, _⟩ :=
      c3_discharge_status c3wSt0 "eco" c3pack1 101 c3wSt1 (by decide)
    exact ⟨e, ps, h1, h2⟩⟩

def c10rec : PackRecord := ⟨some 2, some 0, some 10, none, none, none, none, none⟩

def c10bad : PackRecord := ⟨some 3, none, some 10, none, none, none, none, none⟩

/-- Closed instance of the C10 theorem. -/
theorem c10_witness :
    (∃ st' e, updateUpsData [] "eco" c10rec 100 = .ok st' ∧
      alistLookup st' "eco" = some e) ∧
    (∃ stE e ps, updateUpsData [] "eco" c10bad 100 = .error stE ∧
      alistLookup stE "eco" = some e ∧
      alistLookup e "packs" = some (NutValue.P ps) ∧
      alistLookup ps 3 = some c10bad) := by
  constructor
  · obtain ⟨st', e, hok, he, _, _⟩ :=
      (c10_keyerror_guards [] "eco" c10rec 100 2).1 (by decide) rfl (by decide) (by decide)
    exact ⟨st', e, hok, he⟩
  · exact (c10_keyerror_guards [] "eco" c10bad 100 3).2 (by decide) rfl (by decide)

/-- Closed instance of the C4 theorem. -/
theorem c4_witness :
    (∀ b ∈ [1, 200, 255], b < 256) ∧
    maskBytes (maskBytes [1, 200, 255] 77) 77 = [1, 200, 255] :=
  ⟨by decide, c4_mask_involutive [1, 200, 255] 77 (by decide)⟩

def w5outer : List Nat → Except String (List EnvMsg) :=
  fun _ => .ok [⟨5, 32, 50, 1, [1, 2]⟩]

def w5rec : PackRecord := ⟨some 0, some 0, none, none, none, none, none, none⟩

def w5bms : List Nat → Except String PackRecord := fun _ => .ok w5rec

def w5disp : List Nat → Except String PackRecord := fun _ => .error "unused"

/-- Closed instance of the C5 theorem. -/
theorem c5_witness :
    ∃ m rest, w5outer [0] = .ok (m :: rest) ∧
      ((m.cmd_func = 32 ∧ m.cmd_id = 50) ∨ (m.cmd_func = 254 ∧ m.cmd_id = 21)) :=
  (c5_decode_total_and_dispatch w5outer w5bms w5disp [0] "SN").2.1 w5rec (by decide)

/-- Closed instance of the C9 theorem. -/
theorem c9_witness :
    onMqttMessage [⟨"eco", "SN"⟩] (fun _ _ => none) [] "/t/SN"
      (0x7B :: 0x22 :: [1]) 100 = ([], false) :=
  c9_json_guard [⟨"eco", "SN"⟩] (fun _ _ => none) [] "/t/SN" [1] 100 ⟨"eco", "SN"⟩
    (by decide)

theorem c8_witness :
    (([⟨"a", "s1"⟩, ⟨"b", "s2"⟩] : List Device).map Device.ups_name).Nodup ∧
    (([⟨"a", "s1"⟩, ⟨"b", "s2"⟩] : List Device).map
      (fun d' => d'.ups_name ++ upsDescr)).count (("a" : String) ++ upsDescr) = 1 :=
  ⟨by decide, (c8_list_ups [⟨"a", "s1"⟩, ⟨"b", "s2"⟩] []).2 (by decide) ⟨"a", "s1"⟩
    (by decide)⟩

end EcoflowNut
